import Mathlib

/-!
Shallow embedding of the `statement_parser` transformation pipeline
(`src/statement_parser/extractors/`): column coercion (`_columns.py`),
row/metadata transformers (`_transformers.py`), the per-file orchestration
(`_base.py`) and the tabula page assembly (`tabula.py`).

Conventions of the embedding:
* pandas cells are modelled by the inductive `Cell`: `null` stands for
  NaN/None, `str` for text cells, `num n m` for the numeric value
  `n / 10 ^ m` exactly as produced by the decimal parser, `date` for
  day-resolution timestamps.
* `pd.to_numeric` with coercing errors is modelled by a decimal parser
  (optional sign, digits, optional fractional digits); unparseable text
  becomes `Cell.null`.
* `pd.to_datetime` with an explicit format is modelled by a miniature
  strptime over the directives the repository uses
  (`%Y`, `%m`, `%d`, `%b`, literals); alternatives are tried in the same
  order as Python's regex-based `_strptime`, and the default year for
  year-less formats is 1900.
* regex searches that are pure configuration (account-name captures,
  exclusion patterns) enter the model as opaque matcher functions,
  exactly as the `re` module is an external collaborator of the code.
* `.str` accessor steps map non-string cells to `null`, which is the
  pandas object-dtype behaviour; column lookups assume the layout's
  columns are present, as every configured chain guarantees.
-/

/-- Calendar date at day resolution (models `datetime.date` and the
day-level content of a pandas `Timestamp`). -/
structure Date where
  year : Nat
  month : Nat
  day : Nat
  deriving DecidableEq, Repr

/-- Gregorian leap-year rule. -/
def isLeap (y : Nat) : Bool :=
  y % 4 == 0 && (y % 100 != 0 || y % 400 == 0)

/-- Number of days of month `m` in year `y`. -/
def daysInMonth (y m : Nat) : Nat :=
  if m = 2 then (if isLeap y then 29 else 28)
  else if m = 4 ∨ m = 6 ∨ m = 9 ∨ m = 11 then 30
  else 31

/-- Days occupied by the months strictly before month `m` in year `y`. -/
def monthDaysBefore (y m : Nat) : Nat :=
  (List.range (m - 1)).foldl (fun a i => a + daysInMonth y (i + 1)) 0

/-- Ordinal day number of a date (Rata Die style); differences of `rd`
values are exactly the day differences `( - ).dt.days` computed by
pandas on day-resolution timestamps. -/
def rd (d : Date) : Nat :=
  let py := d.year - 1
  365 * py + py / 4 - py / 100 + py / 400 + monthDaysBefore d.year d.month + d.day

/-- Subtracting `pd.DateOffset(years=1)`: same calendar day one year
earlier, with Feb 29 clamped to Feb 28 when the target year is not leap. -/
def subOneYear (d : Date) : Date :=
  let y := d.year - 1
  if d.month == 2 && d.day == 29 && !isLeap y then ⟨y, 2, 28⟩
  else ⟨y, d.month, d.day⟩

/-- Decimal digit character for `d % 10`-sized arguments. -/
def digitChar (d : Nat) : Char :=
  match d with
  | 0 => '0' | 1 => '1' | 2 => '2' | 3 => '3' | 4 => '4'
  | 5 => '5' | 6 => '6' | 7 => '7' | 8 => '8' | _ => '9'

/-- Fuelled digit expansion; the fuel only bounds the recursion depth,
and `natDigits` always supplies enough of it. -/
def natDigitsAux : Nat → Nat → List Char
  | 0, _ => []
  | fuel + 1, n =>
    if n < 10 then [digitChar n]
    else natDigitsAux fuel (n / 10) ++ [digitChar (n % 10)]

/-- Decimal digit characters of a natural number, most significant first. -/
def natDigits (n : Nat) : List Char :=
  natDigitsAux (n + 1) n

/-- Value of a digit-character list read in base 10. -/
def digitsToNat (l : List Char) : Nat :=
  l.foldl (fun acc c => acc * 10 + (c.toNat - 48)) 0

/-- Unsigned decimal rendering of the scaled value `a / 10 ^ m`:
the digit string of `a` left-padded with zeros so that a decimal point
can be placed `m` digits from the right (no point when `m = 0`). -/
def renderUnsignedL (a m : Nat) : List Char :=
  if m = 0 then natDigits a
  else
    let ds := natDigits a
    let pad := List.replicate (m + 1 - ds.length) '0' ++ ds
    pad.take (pad.length - m) ++ '.' :: pad.drop (pad.length - m)

/-- Signed decimal rendering of `n / 10 ^ m`. -/
def renderDecL (n : Int) (m : Nat) : List Char :=
  if n < 0 then '-' :: renderUnsignedL n.natAbs m else renderUnsignedL n.natAbs m

/-- Two-digit zero-padded rendering, for ISO date text. -/
def pad2 (n : Nat) : List Char :=
  if n < 10 then '0' :: natDigits n else natDigits n

/-- ISO rendering of a date, as `str` of a `datetime.date` produces. -/
def renderDate (d : Date) : String :=
  String.mk (natDigits d.year ++ '-' :: pad2 d.month ++ '-' :: pad2 d.day)

/-- A pandas cell: NaN, text, an exact scaled decimal, or a date. -/
inductive Cell where
  | null
  | str (s : String)
  | num (n : Int) (m : Nat)
  | date (d : Date)
  deriving DecidableEq, Repr

/-- `astype(str)` rendering of a cell; NaN stringifies to `"nan"`. -/
def cellStr (c : Cell) : String :=
  match c with
  | Cell.null => "nan"
  | Cell.str s => s
  | Cell.num n m => String.mk (renderDecL n m)
  | Cell.date d => renderDate d

/-- `fillna('').astype(str)` rendering: like `cellStr` but NaN becomes
the empty string, as `_get_lines` does before joining columns. -/
def fillnaStr (c : Cell) : String :=
  match c with
  | Cell.null => ""
  | c => cellStr c

/-- A record set: named columns and rows of cells (a pandas DataFrame
in row-major form; row order is transaction order). -/
structure Df where
  cols : List String
  rows : List (List Cell)
  deriving DecidableEq, Repr

/-- Cell of `row` in the column named `c` (columns assumed present in
well-formed layouts; absent columns read as null in the model). -/
def getCell (cols : List String) (row : List Cell) (c : String) : Cell :=
  match cols.findIdx? (fun x => x = c) with
  | some i => row.getD i Cell.null
  | none => Cell.null

/-- The full column named `c` of a record set. -/
def getColCells (df : Df) (c : String) : List Cell :=
  df.rows.map (fun r => getCell df.cols r c)

/-- `df[name] = vals`: replace the column if it exists, else append it
on the right, exactly as pandas column assignment does. -/
def setCol (df : Df) (name : String) (vals : List Cell) : Df :=
  match df.cols.findIdx? (fun x => x = name) with
  | some i => ⟨df.cols, (df.rows.zip vals).map (fun p => p.1.set i p.2)⟩
  | none => ⟨df.cols ++ [name], (df.rows.zip vals).map (fun p => p.1 ++ [p.2])⟩

/-- Assign one constant value to a whole (possibly new) column. -/
def setConstCol (df : Df) (name : String) (c : Cell) : Df :=
  setCol df name (List.replicate df.rows.length c)

/-! ## Numeric coercion (`NumericColumn._process`, `_columns.py` 48-79) -/

/-- `str.contains(r'\d+-')`: some digit immediately followed by `'-'`. -/
def hasDigitDash (l : List Char) : Bool :=
  match l with
  | c1 :: c2 :: rest => (c1.isDigit && c2 == '-') || hasDigitDash (c2 :: rest)
  | _ => false

/-- `str.contains(' CR$')`: the text ends with `" CR"`. -/
def endsWithCR (l : List Char) : Bool :=
  match l.reverse with
  | 'R' :: 'C' :: ' ' :: _ => true
  | _ => false

/-- The five normalisation rewrites of `NumericColumn._process`, in
source order: strip all dashes when a digit-dash occurs, strip `$`,
strip `,`, negate a trailing `" CR"`, rewrite `( … )` to a leading
minus. -/
def numericNormalizeL (l : List Char) : List Char :=
  let l1 := if hasDigitDash l then l.filter (fun c => c ≠ '-') else l
  let l2 := l1.filter (fun c => c ≠ '$')
  let l3 := l2.filter (fun c => c ≠ ',')
  let l4 := if endsWithCR l3 then '-' :: l3.take (l3.length - 3) else l3
  if l4.any (fun c => c = '(') then
    (l4.map (fun c => if c = '(' then '-' else c)).filter (fun c => c ≠ ')')
  else l4

/-- Unsigned decimal parse: integer digits, optional point, fractional
digits; the result is the scaled pair (digits value, number of
fractional digits). -/
def parseUnsigned (l : List Char) : Option (Nat × Nat) :=
  let ip := l.takeWhile (fun c => c ≠ '.')
  let rest := l.dropWhile (fun c => c ≠ '.')
  let fp := rest.drop 1
  if ip.all Char.isDigit && fp.all Char.isDigit && !fp.any (fun c => c = '.')
      && !(ip.isEmpty && fp.isEmpty) then
    some (digitsToNat (ip ++ fp), fp.length)
  else none

/-- Signed decimal parse, the model of coercing `pd.to_numeric` on
one string. -/
def parseDecL (l : List Char) : Option (Int × Nat) :=
  match l with
  | [] => none
  | c :: rest =>
    if c = '-' then (parseUnsigned rest).map (fun p => (-(p.1 : Int), p.2))
    else if c = '+' then (parseUnsigned rest).map (fun p => ((p.1 : Int), p.2))
    else (parseUnsigned (c :: rest)).map (fun p => ((p.1 : Int), p.2))

/-- Numeric coercion of one text cell: normalise then parse; parse
failures coerce to null. -/
def numericCellStr (s : String) : Cell :=
  match parseDecL (numericNormalizeL s.data) with
  | some p => Cell.num p.1 p.2
  | none => Cell.null

/-- Negation of a numeric cell (`flip_sign`); nulls stay null, exactly
as `- NaN` is NaN. -/
def negCell (c : Cell) : Cell :=
  match c with
  | Cell.num n m => Cell.num (-n) m
  | c => c

/-- `NumericColumn._process` on one cell: text is normalised and
parsed, NaN and non-string cells coerce to null (pandas `.str` steps
on object dtype map non-strings to NaN), and `flip_sign` negates. -/
def numericCellDyn (flip : Bool) (c : Cell) : Cell :=
  let r := match c with
    | Cell.str s => numericCellStr s
    | _ => Cell.null
  if flip then negCell r else r

/-- `NumericColumn._process` on a whole column. -/
def numericProcess (flip : Bool) (cells : List Cell) : List Cell :=
  cells.map (numericCellDyn flip)

/-- Stringification of a processed numeric cell, used to feed the
output of numeric coercion back to it. -/
def renderCell (c : Cell) : Cell :=
  match c with
  | Cell.num n m => Cell.str (String.mk (renderDecL n m))
  | c => c

/-! ## Date coercion (`DateColumn._process`, `_columns.py` 22-41) -/

/-- Fields accumulated by the strptime match. -/
structure StParts where
  y : Option Nat
  m : Option Nat
  d : Option Nat
  deriving DecidableEq, Repr

/-- Exactly `k` leading digits of the input, with the rest. -/
def exactDigits (k : Nat) (l : List Char) : Option (Nat × List Char) :=
  let ds := l.take k
  if ds.length = k && ds.all Char.isDigit then some (digitsToNat ds, l.drop k)
  else none

/-- `%Y` alternatives, longest first, as Python's strptime regex
`\d\d\d\d|\d\d\d|\d\d|\d` tries them. -/
def yCandidates (inp : List Char) : List (Nat × List Char) :=
  [4, 3, 2, 1].filterMap (fun k => exactDigits k inp)

/-- `%m` alternatives (`1[0-2]|0[1-9]|[1-9]`): a valid two-digit month
first, else one non-zero digit. -/
def mCandidates (inp : List Char) : List (Nat × List Char) :=
  (match inp with
   | c1 :: c2 :: tl =>
     if (c1 = '1' && (c2 = '0' || c2 = '1' || c2 = '2'))
         || (c1 = '0' && c2.isDigit && c2 != '0') then
       [(digitsToNat [c1, c2], tl)]
     else []
   | _ => []) ++
  (match inp with
   | c :: tl => if c.isDigit && c != '0' then [(digitsToNat [c], tl)] else []
   | _ => [])

/-- `%d` alternatives (`3[01]|[12]\d|0[1-9]|[1-9]`). -/
def dCandidates (inp : List Char) : List (Nat × List Char) :=
  (match inp with
   | c1 :: c2 :: tl =>
     if (c1 = '3' && (c2 = '0' || c2 = '1'))
         || ((c1 = '1' || c1 = '2') && c2.isDigit)
         || (c1 = '0' && c2.isDigit && c2 != '0') then
       [(digitsToNat [c1, c2], tl)]
     else []
   | _ => []) ++
  (match inp with
   | c :: tl => if c.isDigit && c != '0' then [(digitsToNat [c], tl)] else []
   | _ => [])

/-- Month abbreviations recognised by `%b` (matched case-insensitively). -/
def monthAbbrevs : List (List Char) :=
  [['j','a','n'], ['f','e','b'], ['m','a','r'], ['a','p','r'],
   ['m','a','y'], ['j','u','n'], ['j','u','l'], ['a','u','g'],
   ['s','e','p'], ['o','c','t'], ['n','o','v'], ['d','e','c']]

/-- `%b` match: three input characters, lowercased, against a month name. -/
def bCandidates (inp : List Char) : List (Nat × List Char) :=
  (List.range 12).filterMap (fun i =>
    match monthAbbrevs.getD i [] with
    | abbrev3 =>
      if (inp.take 3).map Char.toLower = abbrev3 && inp.length ≥ 3 then
        some (i + 1, inp.drop 3)
      else none)

/-- The miniature strptime matcher over the directives used by the
layouts (`%Y`, `%m`, `%d`, `%b`); a space in the format consumes a
nonempty whitespace run (Python rewrites format whitespace to `\s+`),
any other character matches literally, and the whole input must be
consumed. -/
def matchFmt : List Char → List Char → StParts → Option StParts
  | [], inp, acc => if inp.isEmpty then some acc else none
  | '%' :: 'Y' :: rest, inp, acc =>
    (yCandidates inp).findSome? (fun p => matchFmt rest p.2 { acc with y := some p.1 })
  | '%' :: 'm' :: rest, inp, acc =>
    (mCandidates inp).findSome? (fun p => matchFmt rest p.2 { acc with m := some p.1 })
  | '%' :: 'd' :: rest, inp, acc =>
    (dCandidates inp).findSome? (fun p => matchFmt rest p.2 { acc with d := some p.1 })
  | '%' :: 'b' :: rest, inp, acc =>
    (bCandidates inp).findSome? (fun p => matchFmt rest p.2 { acc with m := some p.1 })
  | ' ' :: rest, inp, acc =>
    match inp with
    | c :: tl =>
      if c.isWhitespace then matchFmt rest (tl.dropWhile Char.isWhitespace) acc
      else none
    | [] => none
  | c :: rest, inp, acc =>
    match inp with
    | c2 :: tl => if c2 = c then matchFmt rest tl acc else none
    | [] => none

/-- Model of coercing `pd.to_datetime` with an explicit format on
one string: strptime match, defaults 1900-01-01 for missing fields, and
the calendar validation that `datetime.date` performs. -/
def strptime (fmt s : String) : Option Date :=
  match matchFmt fmt.data s.data ⟨none, none, none⟩ with
  | none => none
  | some p =>
    let y := p.y.getD 1900
    let m := p.m.getD 1
    let d := p.d.getD 1
    if 1 ≤ y && 1 ≤ m && m ≤ 12 && 1 ≤ d && d ≤ daysInMonth y m then
      some ⟨y, m, d⟩
    else none

/-- `'%Y' in format`. -/
def hasYD : List Char → Bool
  | '%' :: 'Y' :: _ => true
  | _ :: rest => hasYD rest
  | [] => false

/-- Plain parse of a text cell (`pd.to_datetime` leaves NaN as NaT). -/
def strCellParse (fmt : String) (c : Cell) : Option Date :=
  match c with
  | Cell.str s => strptime fmt s
  | _ => none

/-- The parse step of `DateColumn._process`: when the format lacks `%Y`
and a reference date is given, the reference year is appended to both
the value (`astype(str) + ' ' + str(year)`) and the format (`+ ' %Y'`)
before parsing. -/
def dateParsed (fmt : String) (stmtDate : Option Date) (c : Cell) : Option Date :=
  match stmtDate with
  | some sd =>
    if !hasYD fmt.data then
      strptime (fmt ++ " %Y") (cellStr c ++ " " ++ Nat.repr sd.year)
    else strCellParse fmt c
  | none => strCellParse fmt c

/-- The year-boundary correction: a parsed date more than 300 days
after the reference date has one year subtracted. -/
def dateAdjust (stmtDate : Option Date) (p : Option Date) : Cell :=
  match p, stmtDate with
  | none, _ => Cell.null
  | some p, some sd =>
    if (rd p : Int) - (rd sd : Int) > 300 then Cell.date (subOneYear p)
    else Cell.date p
  | some p, none => Cell.date p

/-- `DateColumn._process` on one cell: parse, then the year-boundary
correction. -/
def dateCell (fmt : String) (stmtDate : Option Date) (c : Cell) : Cell :=
  dateAdjust stmtDate (dateParsed fmt stmtDate c)

/-- `DateColumn._process` on a whole column. -/
def dateProcess (fmt : String) (stmtDate : Option Date) (cells : List Cell) : List Cell :=
  cells.map (dateCell fmt stmtDate)

/-! ## String coercion (`StringColumn._process`, `_columns.py` 82-85) -/

/-- One left-to-right pass of `re.sub(r'\n|\s+', ' ', _)`: at each
position the alternation first matches a single newline, else a maximal
whitespace run; either is replaced by one space. Fuelled so that the
kernel can evaluate it; the fuel always covers the input length. -/
def collapseWsF : Nat → List Char → List Char
  | _, [] => []
  | 0, l => l
  | fuel + 1, c :: rest =>
    if c = '\n' then ' ' :: collapseWsF fuel rest
    else if c.isWhitespace then ' ' :: collapseWsF fuel (rest.dropWhile Char.isWhitespace)
    else c :: collapseWsF fuel rest

/-- Whitespace collapsing on a string. -/
def collapseWs (s : String) : String :=
  String.mk (collapseWsF s.data.length s.data)

/-- `StringColumn._process` on one cell: `astype(str)` (NaN becomes
`"nan"`) followed by whitespace collapsing; the output is always text. -/
def stringCell (c : Cell) : Cell :=
  Cell.str (collapseWs (cellStr c))

/-- `StringColumn._process` on a whole column. -/
def stringProcess (cells : List Cell) : List Cell :=
  cells.map stringCell

/-! ## Row grouping (`RowsCombine.transform`, `_transformers.py` 111-134) -/

/-- `notnull` of a cell. -/
def notNullC (c : Cell) : Bool :=
  match c with
  | Cell.null => false
  | _ => true

/-- A row opens a new logical group when any anchor column is non-null. -/
def anyAnchor (cols anchor : List String) (row : List Cell) : Bool :=
  anchor.any (fun a => notNullC (getCell cols row a))

/-- `GroupBy.first()` over one column of a group: the first non-null
value, null when the whole group is null in that column. -/
def firstSome : List Cell → Cell
  | [] => Cell.null
  | Cell.null :: rest => firstSome rest
  | c :: _ => c

/-- Split flagged rows into anchored groups: each group is one flagged
row followed by its run of unflagged continuation rows. Fuelled for
kernel evaluation; `groupsAnch` supplies fuel covering the list. -/
def groupsAnchF : Nat → List (List Cell × Bool) → List (List (List Cell))
  | _, [] => []
  | 0, l => [l.map Prod.fst]
  | fuel + 1, p :: rest =>
    (p.1 :: (rest.takeWhile (fun q => !q.2)).map Prod.fst)
      :: groupsAnchF fuel (rest.dropWhile (fun q => !q.2))

/-- Anchored groups of a flagged row list. -/
def groupsAnch (l : List (List Cell × Bool)) : List (List (List Cell)) :=
  groupsAnchF l.length l

/-- All groups of the cumulative-sum grouping: rows before the first
anchored row form group 0 (present only when such rows exist), then the
anchored groups in order — exactly the ascending `group_id` blocks that
`df.groupby('group_id')` enumerates. -/
def combineGroups (cols anchor : List String) (rows : List (List Cell)) :
    List (List (List Cell)) :=
  let paired := rows.map (fun r => (r, anyAnchor cols anchor r))
  let lead := paired.takeWhile (fun p => !p.2)
  let rest := paired.dropWhile (fun p => !p.2)
  (if lead.isEmpty then [] else [lead.map Prod.fst]) ++ groupsAnch rest

/-- The combined output row of one group: anchor and first columns via
`GroupBy.first()`, concat columns joined over all rows of the group in
physical order with the separator (`f'{i}'` renders a null cell as
`"nan"`). -/
def combineGroup (anchor concat fcols : List String) (sep : String)
    (cols : List String) (g : List (List Cell)) : List Cell :=
  anchor.map (fun a => firstSome (g.map (fun r => getCell cols r a)))
    ++ concat.map (fun c =>
        Cell.str (String.intercalate sep (g.map (fun r => cellStr (getCell cols r c)))))
    ++ fcols.map (fun a => firstSome (g.map (fun r => getCell cols r a)))

/-- `RowsCombine.transform`: cumulative-sum group ids over the anchor
flags; when the frame is nonempty and the maximal id is 0 the result is
the empty frame with the original columns; otherwise one combined row
per group id, with only the anchor, concat and first columns kept. -/
def rowsCombine (anchor concat fcols : List String) (sep : String) (df : Df) : Df :=
  let flags := df.rows.map (anyAnchor df.cols anchor)
  if !df.rows.isEmpty && flags.all (fun b => !b) then ⟨df.cols, []⟩
  else
    ⟨anchor ++ concat ++ fcols,
     (combineGroups df.cols anchor df.rows).map
       (combineGroup anchor concat fcols sep df.cols)⟩

/-! ## Lines, derived columns, filtering (`_transformers.py`) -/

/-- `_get_lines`: per row, `fillna('')`-stringify the selected columns
(all columns when no selection is configured) and join them with the
empty separator. -/
def getLines (df : Df) (sel : Option (List String)) : List String :=
  let cs := match sel with
    | some cs => cs
    | none => df.cols
  df.rows.map (fun r => String.join (cs.map (fun c => fillnaStr (getCell df.cols r c))))

/-- `ffill`: each null takes the most recent earlier non-null value. -/
def ffill (last : Option String) : List (Option String) → List (Option String)
  | [] => []
  | none :: rest => last :: ffill last rest
  | some v :: rest => some v :: ffill (some v) rest

/-- An optional capture as a cell. -/
def optToCell (o : Option String) : Cell :=
  match o with
  | some s => Cell.str s
  | none => Cell.null

/-- `RowsFilter.transform`: drop every row whose target text matches the
ORed exclusion patterns (an opaque matcher in the model); the target is
the configured column's text, else the whole concatenated row; an empty
frame is returned unchanged. -/
def rowsFilter (matcher : String → Bool) (column : Option String) (df : Df) : Df :=
  if df.rows.isEmpty then df
  else
    ⟨df.cols,
     df.rows.filter (fun r =>
       !(match column with
         | some c =>
           match getCell df.cols r c with
           | Cell.str s => matcher s
           | _ => false
         | none =>
           matcher (String.join (df.cols.map (fun c => fillnaStr (getCell df.cols r c))))))⟩

/-! ## Metadata context and the transformer chain
(`ExtractNewColumn` / `ExtractMeta` / `ColumnsProcess`, and
`BaseExtractor.process_df` / `extract_files` in `_base.py`) -/

/-- A metadata value: the raw regex capture, or the timestamp a
processor chain produced from it (the only value type the pipeline
reads back, through `stmt_date`). -/
inductive MetaVal where
  | str (s : String)
  | date (d : Date)
  deriving DecidableEq, Repr

/-- The keyword-argument mapping threaded through `process_df`; lookup
takes the first binding, so `kw ++ md` is Python's
`\x7b**md, **kw\x7d` merge in which existing `kw` entries win. -/
abbrev Kwargs : Type := List (String × MetaVal)

/-- The reference date a `DateColumn` reads from the context. -/
def getStmtDate (kw : Kwargs) : Option Date :=
  match List.lookup "stmt_date" kw with
  | some (MetaVal.date d) => some d
  | _ => none

/-- Column kinds of `ColumnsProcess` entries. -/
inductive ColKind where
  | dateK (fmt : String)
  | numK (flip : Bool)
  | strK

/-- One `BaseColumn` configuration: name, `drop_null`, kind options. -/
structure ColSpec where
  name : String
  dropNull : Bool
  kind : ColKind

/-- Process one column's cells according to its kind. -/
def processColSpec (spec : ColSpec) (cells : List Cell) (kw : Kwargs) : List Cell :=
  match spec.kind with
  | ColKind.dateK fmt => dateProcess fmt (getStmtDate kw) cells
  | ColKind.numK flip => numericProcess flip cells
  | ColKind.strK => stringProcess cells

/-- Drop the rows whose cell in column `name` is null. -/
def dropNullRows (df : Df) (name : String) : Df :=
  ⟨df.cols, df.rows.filter (fun r => notNullC (getCell df.cols r name))⟩

/-- The transformer variants of `_transformers.py`; every variant
carries its own `meta_dict` instance field (`BaseTransformer`), and the
regex searches are opaque capture/matcher functions. -/
inductive Transformer where
  | extractNewColumn (name : String) (capture : String → Option String)
      (regexCols : Option (List String)) (procs : List (MetaVal → MetaVal))
      (metaDict : List (String × MetaVal))
  | extractMeta (key : String) (capture : String → Option String)
      (regexCols : Option (List String)) (procs : List (MetaVal → MetaVal))
      (metaDict : List (String × MetaVal))
  | columnsProcess (specs : List ColSpec) (metaDict : List (String × MetaVal))
  | rowsCombine (anchor concat fcols : List String) (sep : String)
      (metaDict : List (String × MetaVal))
  | rowsFilter (matcher : String → Bool) (column : Option String)
      (metaDict : List (String × MetaVal))

/-- The `meta_dict` field of a transformer. -/
def metaDictOf (t : Transformer) : List (String × MetaVal) :=
  match t with
  | Transformer.extractNewColumn _ _ _ _ md => md
  | Transformer.extractMeta _ _ _ _ md => md
  | Transformer.columnsProcess _ md => md
  | Transformer.rowsCombine _ _ _ _ md => md
  | Transformer.rowsFilter _ _ md => md

/-- `tfmr.meta_dict = \x7b\x7d`: the per-file reset of a transformer. -/
def resetDict (t : Transformer) : Transformer :=
  match t with
  | Transformer.extractNewColumn n c rc ps _ => Transformer.extractNewColumn n c rc ps []
  | Transformer.extractMeta k c rc ps _ => Transformer.extractMeta k c rc ps []
  | Transformer.columnsProcess s _ => Transformer.columnsProcess s []
  | Transformer.rowsCombine a co f se _ => Transformer.rowsCombine a co f se []
  | Transformer.rowsFilter m col _ => Transformer.rowsFilter m col []

/-- Reset every transformer's metadata cache (the loop at the end of
each `extract_files` iteration). -/
def resetDicts (ts : List Transformer) : List Transformer :=
  ts.map resetDict

/-- `transform` of one transformer: returns the new frame and the
transformer with its (possibly written) `meta_dict`.

`extractMeta` skips everything when its key is already in its own
`meta_dict`; otherwise it stores the processor-folded first capture
found in row order. `extractNewColumn` assigns the forward-filled
captures and never touches its `processors`. -/
def applyTransformer (t : Transformer) (df : Df) (kw : Kwargs) : Df × Transformer :=
  match t with
  | Transformer.extractNewColumn name cap rc procs md =>
    let vals := ffill none ((getLines df rc).map cap)
    (setCol df name (vals.map optToCell), Transformer.extractNewColumn name cap rc procs md)
  | Transformer.extractMeta key cap rc procs md =>
    if (List.lookup key md).isSome then (df, Transformer.extractMeta key cap rc procs md)
    else
      match (getLines df rc).findSome? cap with
      | none => (df, Transformer.extractMeta key cap rc procs md)
      | some v =>
        (df, Transformer.extractMeta key cap rc procs
          (md ++ [(key, procs.foldl (fun a p => p a) (MetaVal.str v))]))
  | Transformer.columnsProcess specs md =>
    (specs.foldl (fun dfa spec =>
        let dfb := setCol dfa spec.name (processColSpec spec (getColCells dfa spec.name) kw)
        if spec.dropNull then dropNullRows dfb spec.name else dfb) df,
     Transformer.columnsProcess specs md)
  | Transformer.rowsCombine a co f se md =>
    (rowsCombine a co f se df, Transformer.rowsCombine a co f se md)
  | Transformer.rowsFilter m col md =>
    (rowsFilter m col df, Transformer.rowsFilter m col md)

/-- The transformer loop of `process_df`: after each `transform`, the
transformer's `meta_dict` is merged under the running kwargs
(`kwargs = \x7b**tfmr.meta_dict, **kwargs\x7d`, existing keys win).
Returns the frame, the final kwargs and the mutated transformer list. -/
def runChain : List Transformer → Df → Kwargs → Df × Kwargs × List Transformer
  | [], df, kw => (df, kw, [])
  | t :: ts, df, kw =>
    let r1 := applyTransformer t df kw
    let r2 := runChain ts r1.1 (kw ++ metaDictOf r1.2)
    (r2.1, r2.2.1, r1.2 :: r2.2.2)

/-- The kwargs mapping each transformer of the chain receives, in chain
order. -/
def kwargsTrace : List Transformer → Df → Kwargs → List Kwargs
  | [], _, _ => []
  | t :: ts, df, kw =>
    kw :: (let r1 := applyTransformer t df kw
           kwargsTrace ts r1.1 (kw ++ metaDictOf r1.2))

/-- `BaseExtractor.process_df`: run the chain, then tag every row with
`StatementDate` when the final context holds a `stmt_date` timestamp. -/
def processDf (ts : List Transformer) (df : Df) (kw : Kwargs) :
    Df × Kwargs × List Transformer :=
  let r := runChain ts df kw
  match getStmtDate r.2.1 with
  | some d => (setConstCol r.1 "StatementDate" (Cell.date d), r.2)
  | none => r

/-- One file of a batch, from its page-concatenated raw frame through
the chain (started with empty kwargs) to the `BankName` /
`StatementType` tagging of `extract_file`. -/
def processFile (ts : List Transformer) (bank stype : String) (f : Df) :
    Df × List Transformer :=
  let r := processDf ts f []
  (setConstCol (setConstCol r.1 "BankName" (Cell.str bank)) "StatementType" (Cell.str stype),
   r.2.2)

/-- `BaseExtractor.extract_files`: process each file in order with the
current transformer state, then reset every `meta_dict` before the next
file; the per-file record sets are kept in submission order. -/
def extractFiles (ts : List Transformer) (bank stype : String) : List Df → List Df
  | [] => []
  | f :: fs =>
    let r := processFile ts bank stype f
    r.1 :: extractFiles (resetDicts r.2) bank stype fs

/-- Every transformer's metadata cache is empty (the state of a freshly
constructed extractor, whose `meta_dict` defaults to `\x7b\x7d`). -/
def dictsEmpty (ts : List Transformer) : Bool :=
  ts.all (fun t => (metaDictOf t).isEmpty)

/-! ## Page assembly and error wrapping
(`TabulaBaseExtractor._extract_file`, `BaseExtractor.extract_file`) -/

/-- One raw page returned by the extraction collaborator: its column
count and its rows. -/
structure Page where
  ncols : Nat
  rows : List (List Cell)

/-- The page loop of `_extract_file`: assert each page's column count
against the declared width, keep non-empty pages. -/
def collectPages (w : Nat) : List Page → Except String (List (List Cell))
  | [] => Except.ok []
  | p :: ps =>
    if p.ncols ≠ w then Except.error "AssertionError"
    else (collectPages w ps).map (fun rest => p.rows ++ rest)

/-- `_extract_file` up to the transformer chain: page widths asserted,
pages concatenated (`pd.concat` raises when every page was empty),
declared column names installed. -/
def tabulaExtractRaw (columnNames : List String) (pages : List Page) : Except String Df :=
  (collectPages columnNames.length pages).bind (fun rows =>
    if rows.isEmpty then Except.error "ValueError: no objects to concatenate"
    else Except.ok ⟨columnNames, rows⟩)

/-- The whole `TabulaBaseExtractor._extract_file` body: raw assembly
followed by the transformer chain. -/
def tabulaExtractFile (ts : List Transformer) (columnNames : List String)
    (pages : List Page) : Except String Df :=
  (tabulaExtractRaw columnNames pages).map (fun df => (processDf ts df []).1)

/-- `BaseExtractor.extract_file`: any failure of the abstract
`_extract_file` is re-raised as `'Extraction failed for <filepath> -
<error>'`; on success the bank and statement-type columns are added. -/
def extractFileWrap (filepath bank stype : String) (inner : Except String Df) :
    Except String Df :=
  match inner with
  | Except.error e => Except.error ("Extraction failed for " ++ filepath ++ " - " ++ e)
  | Except.ok df =>
    Except.ok (setConstCol (setConstCol df "BankName" (Cell.str bank))
      "StatementType" (Cell.str stype))

/-! ## Verification -/

theorem all_map_bool {α β : Type} (l : List α) (f : α → β) (p : β → Bool) :
    (l.map f).all p = l.all (fun a => p (f a)) := by
  induction l with
  | nil => rfl
  | cons a t ih => simp [ih]

/-- C2: the four documented numeric notations coerce to the stated
signed values, and a `flip_sign` column additionally negates every
cell of the once-coerced result (`Cell.num n m` denotes the exact
decimal value `n / 10 ^ m`). -/
theorem c2_numeric_notations :
    numericProcess false
        [Cell.str "20,000", Cell.str "(10,200)", Cell.str "150-", Cell.str "75 CR"]
      = [Cell.num 20000 0, Cell.num (-10200) 0, Cell.num 150 0, Cell.num (-75) 0]
    ∧ ∀ (cells : List Cell),
        numericProcess true cells = (numericProcess false cells).map negCell := by
  constructor
  · decide
  · intro cells
    simp only [numericProcess, List.map_map]
    rfl

/-- C10: string-kind coercion stringifies every cell (`astype(str)`
turns NaN into the text `"nan"`) and collapses whitespace, so the
processed column never contains a null and a null cell surfaces as
exactly `"nan"`. -/
theorem c10_string_nan :
    (∀ (cells : List Cell),
      stringProcess cells = cells.map (fun c => Cell.str (collapseWs (cellStr c)))
      ∧ (stringProcess cells).all notNullC = true)
    ∧ stringCell Cell.null = Cell.str "nan"
    ∧ collapseWs "nan" = "nan" := by
  refine ⟨fun cells => ⟨rfl, ?_⟩, by decide, by decide⟩
  rw [stringProcess, all_map_bool]
  simp [stringCell, notNullC]

/-- C9: `ExtractNewColumn.transform` never reads its `processors`
field (nor its `meta_dict`): the derived column is exactly the capture
applied to the concatenated target columns, forward-filled. -/
theorem c9_processors_unused :
    ∀ (name : String) (cap : String → Option String) (rc : Option (List String))
      (procs1 procs2 : List (MetaVal → MetaVal))
      (md1 md2 : List (String × MetaVal)) (df : Df) (kw : Kwargs),
      (applyTransformer (Transformer.extractNewColumn name cap rc procs1 md1) df kw).1
        = (applyTransformer (Transformer.extractNewColumn name cap rc procs2 md2) df kw).1
      ∧ (applyTransformer (Transformer.extractNewColumn name cap rc procs1 md1) df kw).1
        = setCol df name ((ffill none ((getLines df rc).map cap)).map optToCell) := by
  intro name cap rc procs1 procs2 md1 md2 df kw
  exact ⟨rfl, rfl⟩

theorem collectPages_error_of_mismatch (w : Nat) (pages : List Page)
    (h : ∃ p ∈ pages, p.ncols ≠ w) :
    ∃ e, collectPages w pages = Except.error e := by
  induction pages with
  | nil => obtain ⟨p, hp, _⟩ := h; cases hp
  | cons p ps ih =>
    by_cases hw : p.ncols = w
    · obtain ⟨q, hq, hqw⟩ := h
      rcases List.mem_cons.mp hq with hq | hq
      · subst hq; exact absurd hw hqw
      · obtain ⟨e, he⟩ := ih ⟨q, hq, hqw⟩
        refine ⟨e, ?_⟩
        simp [collectPages, hw, he, Except.map]
    · exact ⟨"AssertionError", by simp [collectPages, hw]⟩

/-- C6: a page whose column count differs from the declared layout
width makes the whole file's extraction fail, and any inner extraction
error is re-raised by `extract_file` with a message that names the
offending file path. -/
theorem c6_layout_mismatch_and_error_wrapping :
    (∀ (ts : List Transformer) (columnNames : List String) (pages : List Page),
      (∃ p ∈ pages, p.ncols ≠ columnNames.length) →
      ∃ e, tabulaExtractFile ts columnNames pages = Except.error e)
    ∧ ∀ (filepath bank stype e : String),
        extractFileWrap filepath bank stype (Except.error e)
          = Except.error ("Extraction failed for " ++ filepath ++ " - " ++ e) := by
  constructor
  · intro ts columnNames pages h
    obtain ⟨e, he⟩ := collectPages_error_of_mismatch columnNames.length pages h
    exact ⟨e, by simp [tabulaExtractFile, tabulaExtractRaw, he, Except.map, Except.bind]⟩
  · intro filepath bank stype e
    rfl

/-- Witness for C6 at a concrete mismatching page. -/
theorem c6_witness :
    ∃ e, tabulaExtractFile [] ["A", "B"] [⟨3, [[Cell.null, Cell.null, Cell.null]]⟩]
      = Except.error e :=
  c6_layout_mismatch_and_error_wrapping.1 [] ["A", "B"]
    [⟨3, [[Cell.null, Cell.null, Cell.null]]⟩]
    ⟨⟨3, [[Cell.null, Cell.null, Cell.null]]⟩, by simp, by decide⟩

/-- C3: `"201010"` under `%Y%m` with no reference date parses to
2010-10-01; and with a reference date and a year-less format, the
reference year is appended to value and format before parsing, after
which any parsed date more than 300 days after the reference date is
moved back exactly one year. -/
theorem c3_date_coercion :
    dateProcess "%Y%m" none [Cell.str "201010"] = [Cell.date ⟨2010, 10, 1⟩]
    ∧ ∀ (fmt : String) (sd : Date) (c : Cell),
        hasYD fmt.data = false →
        dateCell fmt (some sd) c =
          (match strptime (fmt ++ " %Y") (cellStr c ++ " " ++ Nat.repr sd.year) with
           | none => Cell.null
           | some p =>
             if (rd p : Int) - (rd sd : Int) > 300 then Cell.date (subOneYear p)
             else Cell.date p) := by
  constructor
  · decide
  · intro fmt sd c h
    have hb : (!hasYD fmt.data) = true := by rw [h]; rfl
    rw [dateCell, dateParsed, hb]
    simp only [if_true]
    cases strptime (fmt ++ " %Y") (cellStr c ++ " " ++ Nat.repr sd.year) <;> rfl

/-- Witness for C3: a December transaction date against a January
statement date lands 339 days after it and is pulled back to the
previous year. -/
theorem c3_witness :
    dateCell "%d %b" (some ⟨2010, 1, 15⟩) (Cell.str "20 Dec") = Cell.date ⟨2009, 12, 20⟩ :=
  (c3_date_coercion.2 "%d %b" ⟨2010, 1, 15⟩ (Cell.str "20 Dec") (by decide)).trans (by decide)

theorem lookup_append_left {β : Type} (k : String) (v : β)
    (l1 l2 : List (String × β)) (h : List.lookup k l1 = some v) :
    List.lookup k (l1 ++ l2) = some v := by
  induction l1 with
  | nil => simp [List.lookup] at h
  | cons a t ih =>
    rw [List.cons_append, List.lookup]
    rw [List.lookup] at h
    cases hk : (k == a.1) with
    | true => rw [hk] at h; exact h
    | false => rw [hk] at h; exact ih h

theorem runChain_lookup_mono (ts : List Transformer) (df : Df) (kw : Kwargs)
    (k : String) (v : MetaVal) (h : List.lookup k kw = some v) :
    List.lookup k (runChain ts df kw).2.1 = some v := by
  induction ts generalizing df kw with
  | nil => exact h
  | cons t rest ih =>
    rw [runChain]
    exact ih _ _ (lookup_append_left k v kw _ h)

theorem kwargsTrace_lookup_mono (ts : List Transformer) (df : Df) (kw : Kwargs)
    (k : String) (v : MetaVal) (h : List.lookup k kw = some v) :
    ∀ kw' ∈ kwargsTrace ts df kw, List.lookup k kw' = some v := by
  induction ts generalizing df kw with
  | nil => intro kw' hm; cases hm
  | cons t rest ih =>
    intro kw' hm
    rw [kwargsTrace] at hm
    rcases List.mem_cons.mp hm with hm | hm
    · subst hm; exact h
    · exact ih _ _ (lookup_append_left k v kw _ h) kw' hm

theorem runChain_append (ts1 ts2 : List Transformer) (df : Df) (kw : Kwargs) :
    runChain (ts1 ++ ts2) df kw
      = ((runChain ts2 (runChain ts1 df kw).1 (runChain ts1 df kw).2.1).1,
         (runChain ts2 (runChain ts1 df kw).1 (runChain ts1 df kw).2.1).2.1,
         (runChain ts1 df kw).2.2
           ++ (runChain ts2 (runChain ts1 df kw).1 (runChain ts1 df kw).2.1).2.2) := by
  induction ts1 generalizing df kw with
  | nil => rfl
  | cons t rest ih =>
    rw [List.cons_append, runChain, runChain]
    rw [ih]
    rfl

theorem kwargsTrace_append (ts1 ts2 : List Transformer) (df : Df) (kw : Kwargs) :
    kwargsTrace (ts1 ++ ts2) df kw
      = kwargsTrace ts1 df kw
        ++ kwargsTrace ts2 (runChain ts1 df kw).1 (runChain ts1 df kw).2.1 := by
  induction ts1 generalizing df kw with
  | nil => rfl
  | cons t rest ih =>
    rw [List.cons_append, kwargsTrace, kwargsTrace, runChain]
    simp only [List.cons_append, List.cons.injEq, true_and]
    exact ih _ _

/-- C4: during one file's chain, the visible metadata context is
first-writer-wins. Once the kwargs mapping holds `k ↦ v` after some
prefix of the chain, every later transformer receives a kwargs mapping
still holding `k ↦ v` (the merge `\x7b**meta_dict, **kwargs\x7d` lets
existing entries win), the final mapping read by the statement-date
tagging step still holds it, the kwargs seen by the prefix are
unaffected by the suffix, and an `ExtractMeta` whose key is already in
its cache performs no extraction and returns rows and cache
unchanged. -/
theorem c4_meta_first_writer_wins :
    ∀ (ts1 ts2 : List Transformer) (df : Df) (kw : Kwargs) (k : String) (v : MetaVal),
      (List.lookup k (runChain ts1 df kw).2.1 = some v →
        (∀ kw' ∈ kwargsTrace ts2 (runChain ts1 df kw).1 (runChain ts1 df kw).2.1,
            List.lookup k kw' = some v)
        ∧ List.lookup k (runChain (ts1 ++ ts2) df kw).2.1 = some v
        ∧ List.lookup k (processDf (ts1 ++ ts2) df kw).2.1 = some v)
      ∧ kwargsTrace (ts1 ++ ts2) df kw
          = kwargsTrace ts1 df kw
            ++ kwargsTrace ts2 (runChain ts1 df kw).1 (runChain ts1 df kw).2.1
      ∧ ∀ (key : String) (cap : String → Option String) (rc : Option (List String))
          (procs : List (MetaVal → MetaVal)) (md : List (String × MetaVal)),
          (List.lookup key md).isSome = true →
          applyTransformer (Transformer.extractMeta key cap rc procs md) df kw
            = (df, Transformer.extractMeta key cap rc procs md) := by
  intro ts1 ts2 df kw k v
  refine ⟨fun h => ⟨?_, ?_, ?_⟩, kwargsTrace_append ts1 ts2 df kw, ?_⟩
  · exact kwargsTrace_lookup_mono ts2 _ _ k v h
  · rw [runChain_append]
    exact runChain_lookup_mono ts2 _ _ k v h
  · have hfin : List.lookup k (runChain (ts1 ++ ts2) df kw).2.1 = some v := by
      rw [runChain_append]
      exact runChain_lookup_mono ts2 _ _ k v h
    rw [processDf]
    cases getStmtDate (runChain (ts1 ++ ts2) df kw).2.1 <;> exact hfin
  · intro key cap rc procs md hmd
    rw [applyTransformer, if_pos hmd]

/-- Witness for C4: a second `ExtractMeta` with the same key cannot
displace the value the first one put into the context. -/
theorem c4_witness :
    List.lookup "k"
      (runChain
        ([Transformer.extractMeta "k" (fun s => if s = "X" then some "V1" else none) none [] []]
          ++ [Transformer.extractMeta "k" (fun _ => some "V2") none [] []])
        ⟨["A"], [[Cell.str "X"]]⟩ []).2.1 = some (MetaVal.str "V1") :=
  ((c4_meta_first_writer_wins
      [Transformer.extractMeta "k" (fun s => if s = "X" then some "V1" else none) none [] []]
      [Transformer.extractMeta "k" (fun _ => some "V2") none [] []]
      ⟨["A"], [[Cell.str "X"]]⟩ [] "k" (MetaVal.str "V1")).1 (by decide)).2.1

theorem resetDict_applyTransformer (t : Transformer) (df : Df) (kw : Kwargs) :
    resetDict (applyTransformer t df kw).2 = resetDict t := by
  cases t with
  | extractNewColumn name cap rc procs md => rfl
  | extractMeta key cap rc procs md =>
    rw [applyTransformer]
    by_cases h : (List.lookup key md).isSome = true
    · rw [if_pos h]
    · rw [if_neg h]
      cases (getLines df rc).findSome? cap <;> rfl
  | columnsProcess specs md => rfl
  | rowsCombine a co f se md => rfl
  | rowsFilter m col md => rfl

theorem resetDicts_runChain (ts : List Transformer) (df : Df) (kw : Kwargs) :
    resetDicts (runChain ts df kw).2.2 = resetDicts ts := by
  induction ts generalizing df kw with
  | nil => rfl
  | cons t rest ih =>
    rw [runChain]
    show resetDict (applyTransformer t df kw).2
        :: resetDicts (runChain rest (applyTransformer t df kw).1
            (kw ++ metaDictOf (applyTransformer t df kw).2)).2.2
      = resetDict t :: resetDicts rest
    rw [resetDict_applyTransformer, ih]

theorem resetDict_of_empty (t : Transformer) (h : (metaDictOf t).isEmpty = true) :
    resetDict t = t := by
  cases t <;> simp_all [metaDictOf, resetDict, List.isEmpty_iff]

theorem resetDicts_of_empty (ts : List Transformer) (h : dictsEmpty ts = true) :
    resetDicts ts = ts := by
  induction ts with
  | nil => rfl
  | cons t rest ih =>
    rw [dictsEmpty, List.all_cons, Bool.and_eq_true] at h
    rw [resetDicts, List.map_cons, resetDict_of_empty t h.1]
    have := ih h.2
    rw [resetDicts] at this
    rw [this]

/-- C5: metadata found in one file never leaks into the next file of
the batch. With a freshly constructed extractor (all `meta_dict`
caches empty), the record set produced for the second of two files
equals the record set produced when that file is processed alone,
because `extract_files` resets every transformer's cache at each file
boundary. -/
theorem c5_no_cross_file_leak :
    ∀ (ts : List Transformer) (bank stype : String) (f1 f2 : Df),
      dictsEmpty ts = true →
      (extractFiles ts bank stype [f1, f2])[1]? = (extractFiles ts bank stype [f2])[0]? := by
  intro ts bank stype f1 f2 h
  rw [extractFiles, extractFiles, extractFiles, extractFiles]
  have hreset : resetDicts (processFile ts bank stype f1).2 = ts := by
    show resetDicts (processDf ts f1 []).2.2 = ts
    have hdf : (processDf ts f1 []).2.2 = (runChain ts f1 []).2.2 := by
      rw [processDf]
      cases getStmtDate (runChain ts f1 []).2.1 <;> rfl
    rw [hdf, resetDicts_runChain]
    exact resetDicts_of_empty ts h
  rw [hreset]
  rfl

/-- Witness for C5 on a concrete extractor and file pair: the first
file's discovered key V1 does not surface while the second file is
processed. -/
theorem c5_witness :
    (extractFiles
        [Transformer.extractMeta "k" (fun s => if s = "X" then some "V1" else none) none [] []]
        "DBS" "CASA" [⟨["A"], [[Cell.str "X"]]⟩, ⟨["A"], [[Cell.str "Y"]]⟩])[1]?
      = (extractFiles
          [Transformer.extractMeta "k" (fun s => if s = "X" then some "V1" else none) none [] []]
          "DBS" "CASA" [⟨["A"], [[Cell.str "Y"]]⟩])[0]? :=
  c5_no_cross_file_leak
    [Transformer.extractMeta "k" (fun s => if s = "X" then some "V1" else none) none [] []]
    "DBS" "CASA" ⟨["A"], [[Cell.str "X"]]⟩ ⟨["A"], [[Cell.str "Y"]]⟩ (by decide)

theorem head_dropWhile_false {α : Type} (p : α → Bool) (l : List α) (a : α)
    (h : (l.dropWhile p).head? = some a) : p a = false := by
  induction l with
  | nil => cases h
  | cons b t ih =>
    rw [List.dropWhile_cons] at h
    by_cases hb : p b
    · rw [if_pos hb] at h
      exact ih h
    · rw [if_neg hb] at h
      rw [List.head?_cons, Option.some.injEq] at h
      subst h
      exact Bool.eq_false_iff.mpr hb

theorem groupsAnchF_length (fuel : Nat) :
    ∀ (l : List (List Cell × Bool)), l.length ≤ fuel →
      (∀ a, l.head? = some a → a.2 = true) →
      (groupsAnchF fuel l).length = l.countP (fun q => q.2) := by
  induction fuel with
  | zero =>
    intro l hl _
    cases l with
    | nil => rfl
    | cons p rest => simp at hl
  | succ fuel ih =>
    intro l hl hh
    cases l with
    | nil => rfl
    | cons p rest =>
      show ((p.1 :: (rest.takeWhile (fun q => !q.2)).map Prod.fst)
          :: groupsAnchF fuel (rest.dropWhile (fun q => !q.2))).length
        = (p :: rest).countP (fun q => q.2)
      rw [List.length_cons]
      have hrest : (rest.dropWhile (fun q => !q.2)).length ≤ fuel := by
        have h1 : (rest.dropWhile (fun q => !q.2)).length ≤ rest.length :=
          (List.dropWhile_sublist _).length_le
        rw [List.length_cons] at hl
        omega
      have hhead : ∀ a, (rest.dropWhile (fun q => !q.2)).head? = some a → a.2 = true := by
        intro a ha
        have := head_dropWhile_false (fun q => !q.2) rest a ha
        simpa using this
      rw [ih _ hrest hhead]
      have hp2 : p.2 = true := hh p rfl
      have hsplit : rest.countP (fun q => q.2)
          = (rest.takeWhile (fun q => !q.2)).countP (fun q => q.2)
            + (rest.dropWhile (fun q => !q.2)).countP (fun q => q.2) := by
        conv_lhs => rw [← List.takeWhile_append_dropWhile (fun q => !q.2) rest]
        rw [List.countP_append]
      have htake : (rest.takeWhile (fun q => !q.2)).countP (fun q => q.2) = 0 := by
        rw [List.countP_eq_zero]
        intro q hq
        have := List.mem_takeWhile_imp hq
        simpa using this
      rw [List.countP_cons, hsplit, htake, hp2]
      simp

theorem groupsAnchF_tail (fuel : Nat) :
    ∀ (l : List (List Cell × Bool)) (P : List Cell → Bool), l.length ≤ fuel →
      (∀ q ∈ l, q.2 = P q.1) →
      ∀ g ∈ groupsAnchF fuel l, ∀ r ∈ g.tail, P r = false := by
  induction fuel with
  | zero =>
    intro l P hl _ g hg
    cases l with
    | nil => cases hg
    | cons p rest => simp at hl
  | succ fuel ih =>
    intro l P hl hinv g hg r hr
    cases l with
    | nil => cases hg
    | cons p rest =>
      have hg' : g ∈ (p.1 :: (rest.takeWhile (fun q => !q.2)).map Prod.fst)
          :: groupsAnchF fuel (rest.dropWhile (fun q => !q.2)) := hg
      rcases List.mem_cons.mp hg' with hg1 | hg1
      · subst hg1
        rw [List.tail_cons] at hr
        obtain ⟨q, hq, hqr⟩ := List.mem_map.mp hr
        have hqf := List.mem_takeWhile_imp hq
        have hql : q ∈ (p :: rest) :=
          List.mem_cons_of_mem p ((List.takeWhile_sublist (fun q => !q.2)).subset hq)
        have := hinv q hql
        rw [← hqr, ← this]
        simpa using hqf
      · have hlen : (rest.dropWhile (fun q => !q.2)).length ≤ fuel := by
          have h1 : (rest.dropWhile (fun q => !q.2)).length ≤ rest.length :=
            (List.dropWhile_sublist _).length_le
          rw [List.length_cons] at hl
          omega
        have hinv' : ∀ q ∈ rest.dropWhile (fun q => !q.2), q.2 = P q.1 := fun q hq =>
          hinv q (List.mem_cons_of_mem p ((List.dropWhile_sublist (fun q => !q.2)).subset hq))
        exact ih _ P hlen hinv' g hg1 r hr

theorem combineGroups_tail (cols anchor : List String) (rows : List (List Cell)) :
    ∀ g ∈ combineGroups cols anchor rows, ∀ r ∈ g.tail,
      anyAnchor cols anchor r = false := by
  intro g hg r hr
  rw [combineGroups] at hg
  have hinvp : ∀ q ∈ rows.map (fun r => (r, anyAnchor cols anchor r)),
      q.2 = anyAnchor cols anchor q.1 := by
    intro q hq
    obtain ⟨r', _, hr'⟩ := List.mem_map.mp hq
    rw [← hr']
  rcases List.mem_append.mp hg with hg1 | hg1
  · have hlead : g = ((rows.map (fun r => (r, anyAnchor cols anchor r))).takeWhile
        (fun p => !p.2)).map Prod.fst := by
      by_cases he : ((rows.map (fun r => (r, anyAnchor cols anchor r))).takeWhile
          (fun p => !p.2)).isEmpty
      · rw [if_pos he] at hg1; cases hg1
      · rw [if_neg he] at hg1
        rcases List.mem_cons.mp hg1 with h | h
        · exact h
        · cases h
    subst hlead
    have hrg : r ∈ ((rows.map (fun r => (r, anyAnchor cols anchor r))).takeWhile
        (fun p => !p.2)).map Prod.fst := (List.tail_sublist _).subset hr
    obtain ⟨q, hq, hqr⟩ := List.mem_map.mp hrg
    have hqf := List.mem_takeWhile_imp hq
    have := hinvp q ((List.takeWhile_sublist (fun p => !p.2)).subset hq)
    rw [← hqr, ← this]
    simpa using hqf
  · have hinv' : ∀ q ∈ (rows.map (fun r => (r, anyAnchor cols anchor r))).dropWhile
        (fun p => !p.2), q.2 = anyAnchor cols anchor q.1 := fun q hq =>
      hinvp q ((List.dropWhile_sublist (fun p => !p.2)).subset hq)
    exact groupsAnchF_tail _ _ (anyAnchor cols anchor) (Nat.le_refl _) hinv' g hg1 r hr

theorem firstSome_cons_of_ne (c : Cell) (l : List Cell) (h : c ≠ Cell.null) :
    firstSome (c :: l) = c := by
  cases c with
  | null => exact absurd rfl h
  | str s => rfl
  | num n m => rfl
  | date d => rfl

theorem firstSome_all_null (l : List Cell) (h : ∀ c ∈ l, c = Cell.null) :
    firstSome l = Cell.null := by
  induction l with
  | nil => rfl
  | cons c t ih =>
    have hc := h c (List.mem_cons_self c t)
    subst hc
    exact ih (fun c hc => h c (List.mem_cons_of_mem _ hc))

theorem anyAnchor_false_null (cols anchor : List String) (r : List Cell)
    (h : anyAnchor cols anchor r = false) :
    ∀ a ∈ anchor, getCell cols r a = Cell.null := by
  intro a ha
  rw [anyAnchor, List.any_eq_false] at h
  have := h a ha
  cases hc : getCell cols r a with
  | null => rfl
  | str s => rw [hc] at this; simp [notNullC] at this
  | num n m => rw [hc] at this; simp [notNullC] at this
  | date d => rw [hc] at this; simp [notNullC] at this

theorem getCell_nil (cols : List String) (a : String) : getCell cols [] a = Cell.null := by
  rw [getCell]
  cases cols.findIdx? (fun x => x = a) with
  | none => rfl
  | some i => simp

theorem rowsCombine_general (anchor concat fcols : List String) (sep : String) (df : Df)
    (h : df.rows.any (anyAnchor df.cols anchor) = true) :
    rowsCombine anchor concat fcols sep df
      = ⟨anchor ++ concat ++ fcols,
         (combineGroups df.cols anchor df.rows).map
           (combineGroup anchor concat fcols sep df.cols)⟩ := by
  rw [rowsCombine]
  have hall : (df.rows.map (anyAnchor df.cols anchor)).all (fun b => !b) = false := by
    obtain ⟨r0, hr0, hp0⟩ := List.any_eq_true.mp h
    rcases hb : (df.rows.map (anyAnchor df.cols anchor)).all (fun b => !b) with _ | _
    · rfl
    · have := List.all_eq_true.mp hb (anyAnchor df.cols anchor r0) (List.mem_map_of_mem _ hr0)
      rw [hp0] at this
      cases this
  rw [hall, Bool.and_false, if_neg (by simp)]

theorem combineGroups_length (cols anchor : List String) (rows : List (List Cell))
    (h : rows.any (anyAnchor cols anchor) = true) :
    (combineGroups cols anchor rows).length
      = rows.countP (anyAnchor cols anchor)
        + (if anyAnchor cols anchor (rows.headD []) then 0 else 1) := by
  simp only [combineGroups]
  set paired := rows.map (fun r => (r, anyAnchor cols anchor r)) with hpaired
  have hcp : paired.countP (fun q => q.2) = rows.countP (anyAnchor cols anchor) := by
    rw [hpaired, List.countP_map]
    rfl
  have hsplit : paired.countP (fun q => q.2)
      = (paired.takeWhile (fun p => !p.2)).countP (fun q => q.2)
        + (paired.dropWhile (fun p => !p.2)).countP (fun q => q.2) := by
    conv_lhs => rw [← List.takeWhile_append_dropWhile (fun p => !p.2) paired]
    rw [List.countP_append]
  have htake0 : (paired.takeWhile (fun p => !p.2)).countP (fun q => q.2) = 0 := by
    rw [List.countP_eq_zero]
    intro q hq
    have := List.mem_takeWhile_imp hq
    simpa using this
  have hglen : (groupsAnch (paired.dropWhile (fun p => !p.2))).length
      = (paired.dropWhile (fun p => !p.2)).countP (fun q => q.2) := by
    apply groupsAnchF_length
    · exact Nat.le_refl _
    · intro a ha
      have := head_dropWhile_false (fun p => !p.2) paired a ha
      simpa using this
  rw [List.length_append, hglen]
  cases rows with
  | nil => simp at h
  | cons r0 rr =>
    by_cases h0 : anyAnchor cols anchor r0 = true
    · have hlead : paired.takeWhile (fun p => !p.2) = [] := by
        rw [hpaired, List.map_cons, List.takeWhile_cons]
        simp [h0]
      have hdrop : paired.dropWhile (fun p => !p.2) = paired := by
        rw [hpaired, List.map_cons, List.dropWhile_cons]
        simp [h0, hpaired]
      rw [hlead, hdrop, hcp]
      simp [h0]
    · have hleadne : (paired.takeWhile (fun p => !p.2)).isEmpty = false := by
        rw [hpaired, List.map_cons, List.takeWhile_cons]
        simp [h0]
      have hdrop : paired.dropWhile (fun p => !p.2)
          = (rr.map (fun r => (r, anyAnchor cols anchor r))).dropWhile (fun p => !p.2) := by
        rw [hpaired, List.map_cons, List.dropWhile_cons]
        simp [h0]
      have hcount : (paired.dropWhile (fun p => !p.2)).countP (fun q => q.2)
          = paired.countP (fun q => q.2) := by omega
      rw [hleadne, hcount, hcp]
      simp [h0]
      omega

/-- C1 (amended): rows before the first non-null anchor do form group 0
and, unless no row at all is anchored, that group produces an output
row like any other group: when every row lacks anchor values the result
is the empty record set, and otherwise the output has one row per
anchored row plus one extra row exactly when unanchored rows precede
the first anchored one. -/
theorem c1_leading_rows_form_group_zero (anchor concat fcols : List String)
    (sep : String) (df : Df) :
    (df.rows.all (fun r => !anyAnchor df.cols anchor r) = true →
      (rowsCombine anchor concat fcols sep df).rows = [])
    ∧ (df.rows.any (anyAnchor df.cols anchor) = true →
      (rowsCombine anchor concat fcols sep df).rows.length
        = df.rows.countP (anyAnchor df.cols anchor)
          + (if anyAnchor df.cols anchor (df.rows.headD []) then 0 else 1)) := by
  constructor
  · intro h
    rcases hrows : df.rows with _ | ⟨r0, rr⟩
    · simp [rowsCombine, combineGroups, hrows, groupsAnch, groupsAnchF]
    · rw [rowsCombine]
      have hflags : (df.rows.map (anyAnchor df.cols anchor)).all (fun b => !b) = true := by
        rw [all_map_bool]
        exact h
      rw [hflags, hrows]
      simp
  · intro h
    rw [rowsCombine_general anchor concat fcols sep df h]
    show ((combineGroups df.cols anchor df.rows).map
        (combineGroup anchor concat fcols sep df.cols)).length = _
    rw [List.length_map]
    exact combineGroups_length df.cols anchor df.rows h

/-- Counterexample to C1 as stated: with anchor column A and concat
column B, the frame whose first physical row has a null anchor and
description B1 produces an output row for group 0 (anchor null,
B = "B1"): the rows before the first non-null anchor are not
discarded, and the output is not the single row of the anchored
group. -/
theorem c1_counterexample :
    rowsCombine ["A"] ["B"] [] "|"
        ⟨["A", "B"], [[Cell.null, Cell.str "B1"], [Cell.str "A2", Cell.str "B2"]]⟩
      = ⟨["A", "B"], [[Cell.null, Cell.str "B1"], [Cell.str "A2", Cell.str "B2"]]⟩
    ∧ (rowsCombine ["A"] ["B"] [] "|"
        ⟨["A", "B"], [[Cell.null, Cell.str "B1"], [Cell.str "A2", Cell.str "B2"]]⟩).rows.length
      ≠ 1 := by
  constructor
  · decide
  · decide

/-- Witness for C1 (amended) at the boilerplate-then-anchor frame:
two output rows, one for group 0 and one for the anchored group. -/
theorem c1_witness :
    (rowsCombine ["A"] ["B"] [] "|"
      ⟨["A", "B"], [[Cell.null, Cell.str "B1"], [Cell.str "A2", Cell.str "B2"]]⟩).rows.length
      = 2 :=
  ((c1_leading_rows_form_group_zero ["A"] ["B"] [] "|"
    ⟨["A", "B"], [[Cell.null, Cell.str "B1"], [Cell.str "A2", Cell.str "B2"]]⟩).2
      (by decide)).trans (by decide)

/-- C8 (amended): the documented two-row example combines to the single
row A = "A1", B = "B1|B2"; whenever some row is anchored the output
keeps exactly the anchor, concat and first columns (all others are
dropped) with one combined row per cumulative group — including the
group 0 of any leading unanchored rows; and within every group the
anchor columns do take the value of the group's first physical row.
First columns, by contrast, take the group's first NON-null value
(`GroupBy.first()`), which coincides with the first physical row's
value only when that value is non-null; concat columns join all rows'
text (nulls rendered "nan") with the separator in physical order, as
`combineGroup` states. -/
theorem c8_group_combination (anchor concat fcols : List String) (sep : String) (df : Df) :
    rowsCombine ["A"] ["B"] [] "|"
        ⟨["A", "B"], [[Cell.str "A1", Cell.str "B1"], [Cell.null, Cell.str "B2"]]⟩
      = ⟨["A", "B"], [[Cell.str "A1", Cell.str "B1|B2"]]⟩
    ∧ (df.rows.any (anyAnchor df.cols anchor) = true →
        (rowsCombine anchor concat fcols sep df).cols = anchor ++ concat ++ fcols
        ∧ (rowsCombine anchor concat fcols sep df).rows
            = (combineGroups df.cols anchor df.rows).map
                (combineGroup anchor concat fcols sep df.cols))
    ∧ ∀ g ∈ combineGroups df.cols anchor df.rows, ∀ a ∈ anchor,
        firstSome (g.map (fun r => getCell df.cols r a))
          = getCell df.cols (g.headD []) a := by
  refine ⟨by decide, fun h => ?_, ?_⟩
  · rw [rowsCombine_general anchor concat fcols sep df h]
    exact ⟨rfl, rfl⟩
  · intro g hg a ha
    have htail := combineGroups_tail df.cols anchor df.rows g hg
    cases g with
    | nil =>
      show firstSome [] = getCell df.cols [] a
      rw [getCell_nil]
      rfl
    | cons r0 grest =>
      rw [List.map_cons, List.headD_cons]
      by_cases h0 : getCell df.cols r0 a = Cell.null
      · rw [h0]
        show firstSome (Cell.null :: grest.map (fun r => getCell df.cols r a)) = Cell.null
        have hrest : ∀ c ∈ grest.map (fun r => getCell df.cols r a), c = Cell.null := by
          intro c hc
          obtain ⟨r, hrg, hrc⟩ := List.mem_map.mp hc
          have hanch := htail r (by rw [List.tail_cons]; exact hrg)
          rw [← hrc]
          exact anyAnchor_false_null df.cols anchor r hanch a ha
        rw [firstSome]
        exact firstSome_all_null _ hrest
      · exact firstSome_cons_of_ne _ _ h0

/-- Counterexample to C8 as stated: in the single group of this frame
the first column C is null on the group's first physical row, yet the
output carries the later row's value "C2" — `GroupBy.first()` takes
the first non-null value, not the first row's. -/
theorem c8_counterexample :
    rowsCombine ["A"] ["B"] ["C"] "|"
        ⟨["A", "B", "C"],
         [[Cell.str "A1", Cell.str "B1", Cell.null],
          [Cell.null, Cell.str "B2", Cell.str "C2"]]⟩
      = ⟨["A", "B", "C"], [[Cell.str "A1", Cell.str "B1|B2", Cell.str "C2"]]⟩
    ∧ Cell.str "C2" ≠ Cell.null := by
  constructor
  · decide
  · decide

/-- Witness for C8 (amended) on the counterexample frame: the output
keeps exactly the anchor, concat and first columns. -/
theorem c8_witness :
    (rowsCombine ["A"] ["B"] ["C"] "|"
      ⟨["A", "B", "C"],
       [[Cell.str "A1", Cell.str "B1", Cell.null],
        [Cell.null, Cell.str "B2", Cell.str "C2"]]⟩).cols = ["A", "B", "C"] :=
  ((c8_group_combination ["A"] ["B"] ["C"] "|"
    ⟨["A", "B", "C"],
     [[Cell.str "A1", Cell.str "B1", Cell.null],
      [Cell.null, Cell.str "B2", Cell.str "C2"]]⟩).2.1 (by decide)).1

theorem digitChar_isDigit (d : Nat) : (digitChar d).isDigit = true := by
  unfold digitChar
  split <;> decide

theorem digitChar_toNat (d : Nat) (h : d < 10) : (digitChar d).toNat = 48 + d := by
  interval_cases d <;> decide

theorem natDigitsAux_all_digit (fuel : Nat) :
    ∀ n, n < fuel → (natDigitsAux fuel n).all Char.isDigit = true := by
  induction fuel with
  | zero => intro n h; omega
  | succ fuel ih =>
    intro n h
    rw [natDigitsAux]
    by_cases h10 : n < 10
    · rw [if_pos h10]
      simp [digitChar_isDigit]
    · rw [if_neg h10]
      have hdiv : n / 10 < n := Nat.div_lt_self (by omega) (by omega)
      rw [List.all_append]
      rw [ih (n / 10) (by omega)]
      simp [digitChar_isDigit]

theorem natDigits_all_digit (n : Nat) : (natDigits n).all Char.isDigit = true :=
  natDigitsAux_all_digit (n + 1) n (Nat.lt_succ_self n)

theorem natDigitsAux_ne_nil (fuel : Nat) :
    ∀ n, n < fuel → natDigitsAux fuel n ≠ [] := by
  induction fuel with
  | zero => intro n h; omega
  | succ fuel ih =>
    intro n h
    rw [natDigitsAux]
    by_cases h10 : n < 10
    · rw [if_pos h10]; simp
    · rw [if_neg h10]; simp

theorem natDigits_ne_nil (n : Nat) : natDigits n ≠ [] :=
  natDigitsAux_ne_nil (n + 1) n (Nat.lt_succ_self n)

theorem digitsToNat_append_single (l : List Char) (c : Char) :
    digitsToNat (l ++ [c]) = 10 * digitsToNat l + (c.toNat - 48) := by
  rw [digitsToNat, digitsToNat, List.foldl_append, List.foldl_cons, List.foldl_nil]
  omega

theorem natDigitsAux_toNat (fuel : Nat) :
    ∀ n, n < fuel → digitsToNat (natDigitsAux fuel n) = n := by
  induction fuel with
  | zero => intro n h; omega
  | succ fuel ih =>
    intro n h
    rw [natDigitsAux]
    by_cases h10 : n < 10
    · rw [if_pos h10]
      show digitsToNat [digitChar n] = n
      rw [digitsToNat, List.foldl_cons, List.foldl_nil, digitChar_toNat n h10]
      omega
    · rw [if_neg h10]
      have hdiv : n / 10 < n := Nat.div_lt_self (by omega) (by omega)
      rw [digitsToNat_append_single, ih (n / 10) (by omega),
        digitChar_toNat (n % 10) (by omega)]
      omega

theorem digitsToNat_natDigits (n : Nat) : digitsToNat (natDigits n) = n :=
  natDigitsAux_toNat (n + 1) n (Nat.lt_succ_self n)

theorem digitsToNat_zero_cons (l : List Char) :
    digitsToNat ('0' :: l) = digitsToNat l := rfl

theorem digitsToNat_replicate_zero (k : Nat) (l : List Char) :
    digitsToNat (List.replicate k '0' ++ l) = digitsToNat l := by
  induction k with
  | zero => rfl
  | succ k ih =>
    rw [List.replicate_succ, List.cons_append, digitsToNat_zero_cons, ih]

theorem takeWhile_all_eq {α : Type} (p : α → Bool) (l : List α) (h : l.all p = true) :
    l.takeWhile p = l ∧ l.dropWhile p = [] := by
  induction l with
  | nil => exact ⟨rfl, rfl⟩
  | cons a t ih =>
    rw [List.all_cons, Bool.and_eq_true] at h
    rw [List.takeWhile_cons, List.dropWhile_cons, if_pos h.1, if_pos h.1]
    exact ⟨by rw [(ih h.2).1], (ih h.2).2⟩

theorem takeWhile_append_stop {α : Type} (p : α → Bool) (l1 l2 : List α) (c : α)
    (hall : ∀ x ∈ l1, p x = true) (hc : p c = false) :
    (l1 ++ c :: l2).takeWhile p = l1 ∧ (l1 ++ c :: l2).dropWhile p = c :: l2 := by
  induction l1 with
  | nil =>
    rw [List.nil_append, List.takeWhile_cons, List.dropWhile_cons, hc]
    exact ⟨rfl, rfl⟩
  | cons a t ih =>
    have ha : p a = true := hall a (List.mem_cons_self a t)
    have ih' := ih (fun x hx => hall x (List.mem_cons_of_mem a hx))
    rw [List.cons_append, List.takeWhile_cons, List.dropWhile_cons, if_pos ha, if_pos ha]
    exact ⟨by rw [ih'.1], ih'.2⟩

theorem isDigit_ne_special (c : Char) (h : c.isDigit = true) :
    c ≠ '.' ∧ c ≠ '-' ∧ c ≠ '+' ∧ c ≠ '$' ∧ c ≠ ',' ∧ c ≠ '('
      ∧ c ≠ ')' ∧ c ≠ ' ' := by
  refine ⟨?_, ?_, ?_, ?_, ?_, ?_, ?_, ?_⟩ <;>
    · intro he
      subst he
      revert h
      decide

theorem all_digit_all_ne_dot (l : List Char) (h : l.all Char.isDigit = true) :
    l.all (fun c => c ≠ '.') = true := by
  rw [List.all_eq_true] at h ⊢
  intro c hc
  have := (isDigit_ne_special c (h c hc)).1
  simpa using this

theorem parseUnsigned_digits (ds : List Char) (hall : ds.all Char.isDigit = true)
    (hne : ds ≠ []) : parseUnsigned ds = some (digitsToNat ds, 0) := by
  obtain ⟨ht, hd⟩ := takeWhile_all_eq _ ds (all_digit_all_ne_dot ds hall)
  have hemp : ds.isEmpty = false := by
    cases ds with
    | nil => exact absurd rfl hne
    | cons a t => rfl
  simp only [parseUnsigned, ht, hd]
  simp [hall, hemp]

theorem parseUnsigned_render (a m : Nat) (hm : m ≠ 0) :
    parseUnsigned (renderUnsignedL a m) = some (a, m) := by
  simp only [renderUnsignedL]
  rw [if_neg hm]
  set ds := natDigits a with hds
  set pad := List.replicate (m + 1 - ds.length) '0' ++ ds with hpad
  set k := pad.length - m with hk
  have hdsne : ds ≠ [] := by rw [hds]; exact natDigits_ne_nil a
  have hdspos : 0 < ds.length := List.length_pos.mpr hdsne
  have hpadall : pad.all Char.isDigit = true := by
    rw [hpad, List.all_append, Bool.and_eq_true]
    constructor
    · rw [List.all_eq_true]
      intro c hc
      have := List.eq_of_mem_replicate hc
      subst this
      decide
    · rw [hds]; exact natDigits_all_digit a
  have hpadlen : m + 1 ≤ pad.length := by
    rw [hpad, List.length_append, List.length_replicate]
    omega
  have hk1 : 1 ≤ k := by omega
  have htdigit : ∀ x ∈ pad.take k, x.isDigit = true := fun x hx =>
    List.all_eq_true.mp hpadall x (List.mem_of_mem_take hx)
  have hddigit : ∀ x ∈ pad.drop k, x.isDigit = true := fun x hx =>
    List.all_eq_true.mp hpadall x (List.mem_of_mem_drop hx)
  obtain ⟨ht, hd⟩ := takeWhile_append_stop (fun c => decide (c ≠ '.'))
    (pad.take k) (pad.drop k) '.'
    (fun x hx => by simpa using (isDigit_ne_special x (htdigit x hx)).1)
    (by decide)
  have ht_all : (pad.take k).all Char.isDigit = true := List.all_eq_true.mpr htdigit
  have hd_all : (pad.drop k).all Char.isDigit = true := List.all_eq_true.mpr hddigit
  have hdnotdot : (pad.drop k).any (fun c => decide (c = '.')) = false := by
    rw [List.any_eq_false]
    intro c hc
    have := (isDigit_ne_special c (hddigit c hc)).1
    simpa using this
  have htkne : (pad.take k).isEmpty = false := by
    have hlen0 : 0 < (pad.take k).length := by
      rw [List.length_take]
      omega
    cases htk : pad.take k with
    | nil => rw [htk] at hlen0; simp at hlen0
    | cons x t => rfl
  simp only [parseUnsigned, ht, hd]
  simp only [List.drop_succ_cons, List.drop_zero]
  rw [ht_all, hd_all, hdnotdot, htkne]
  simp only [Bool.and_true, Bool.true_and, Bool.and_false, Bool.false_and,
    Bool.not_false, if_true]
  rw [List.take_append_drop]
  have hval : digitsToNat pad = a := by
    rw [hpad, digitsToNat_replicate_zero, hds, digitsToNat_natDigits]
  have hlen : (pad.drop k).length = m := by
    rw [List.length_drop]
    omega
  rw [hval, hlen]

theorem renderUnsignedL_chars (a m : Nat) :
    ∀ c ∈ renderUnsignedL a m, c.isDigit = true ∨ c = '.' := by
  intro c hc
  simp only [renderUnsignedL] at hc
  by_cases hm : m = 0
  · rw [if_pos hm] at hc
    exact Or.inl (List.all_eq_true.mp (natDigits_all_digit a) c hc)
  · rw [if_neg hm] at hc
    have hpad : ∀ x ∈ List.replicate (m + 1 - (natDigits a).length) '0' ++ natDigits a,
        x.isDigit = true := by
      intro x hx
      rcases List.mem_append.mp hx with hx | hx
      · have := List.eq_of_mem_replicate hx
        subst this
        decide
      · exact List.all_eq_true.mp (natDigits_all_digit a) x hx
    rcases List.mem_append.mp hc with hc | hc
    · exact Or.inl (hpad c (List.mem_of_mem_take hc))
    · rcases List.mem_cons.mp hc with hc | hc
      · exact Or.inr hc
      · exact Or.inl (hpad c (List.mem_of_mem_drop hc))

theorem renderUnsignedL_head (a m : Nat) :
    ∃ c t, renderUnsignedL a m = c :: t ∧ c.isDigit = true := by
  by_cases hm : m = 0
  · rw [renderUnsignedL, if_pos hm]
    cases hds : natDigits a with
    | nil => exact absurd hds (natDigits_ne_nil a)
    | cons c t =>
      refine ⟨c, t, rfl, ?_⟩
      have := natDigits_all_digit a
      rw [hds, List.all_cons, Bool.and_eq_true] at this
      exact this.1
  · simp only [renderUnsignedL]
    rw [if_neg hm]
    set ds := natDigits a with hds
    set pad := List.replicate (m + 1 - ds.length) '0' ++ ds with hpad
    have hdsne : ds ≠ [] := by rw [hds]; exact natDigits_ne_nil a
    have hdspos : 0 < ds.length := List.length_pos.mpr hdsne
    have hpadlen : m + 1 ≤ pad.length := by
      rw [hpad, List.length_append, List.length_replicate]
      omega
    have hpadall : ∀ x ∈ pad, x.isDigit = true := by
      intro x hx
      rw [hpad] at hx
      rcases List.mem_append.mp hx with hx | hx
      · have := List.eq_of_mem_replicate hx
        subst this
        decide
      · rw [hds] at hx
        exact List.all_eq_true.mp (natDigits_all_digit a) x hx
    cases hp : pad with
    | nil => rw [hp] at hpadlen; simp at hpadlen
    | cons c t =>
      have hk : ∃ k', pad.length - m = k' + 1 := by
        refine ⟨pad.length - m - 1, ?_⟩
        omega
      obtain ⟨k', hk'⟩ := hk
      rw [hp] at hk'
      rw [hk']
      refine ⟨c, List.take k' t ++ '.' :: (c :: t).drop (k' + 1), ?_, ?_⟩
      · rw [List.take_succ_cons, List.cons_append]
      · exact hpadall c (by rw [hp]; exact List.mem_cons_self c t)

theorem hasDigitDash_eq_false (l : List Char) (h : '-' ∉ l) : hasDigitDash l = false := by
  induction l with
  | nil => rfl
  | cons c rest ih =>
    cases rest with
    | nil => rfl
    | cons c2 r2 =>
      have hc2 : c2 ≠ '-' := fun he => h (by rw [← he] at *; exact List.mem_cons_of_mem c (List.mem_cons_self c2 r2))
      have hrest : '-' ∉ (c2 :: r2) := fun hm => h (List.mem_cons_of_mem c hm)
      show ((c.isDigit && (c2 == '-')) || hasDigitDash (c2 :: r2)) = false
      rw [ih hrest]
      have : (c2 == '-') = false := by
        rcases hb : c2 == '-' with _ | _
        · rfl
        · exact absurd (eq_of_beq hb) hc2
      rw [this]
      simp

theorem endsWithCR_eq_false (l : List Char) (h : ' ' ∉ l) : endsWithCR l = false := by
  rw [endsWithCR]
  split
  · rename_i heq
    have : ' ' ∈ l.reverse := by
      rw [heq]
      exact List.mem_cons_of_mem _ (List.mem_cons_of_mem _ (List.mem_cons_self _ _))
    rw [List.mem_reverse] at this
    exact absurd this h
  · rfl

theorem renderDecL_chars (n : Int) (m : Nat) :
    ∀ c ∈ renderDecL n m, c.isDigit = true ∨ c = '.' ∨ c = '-' := by
  intro c hc
  rw [renderDecL] at hc
  by_cases hn : n < 0
  · rw [if_pos hn] at hc
    rcases List.mem_cons.mp hc with hc | hc
    · exact Or.inr (Or.inr hc)
    · rcases renderUnsignedL_chars n.natAbs m c hc with h | h
      · exact Or.inl h
      · exact Or.inr (Or.inl h)
  · rw [if_neg hn] at hc
    rcases renderUnsignedL_chars n.natAbs m c hc with h | h
    · exact Or.inl h
    · exact Or.inr (Or.inl h)

theorem renderDecL_ne_special (n : Int) (m : Nat) :
    ∀ c ∈ renderDecL n m, c ≠ '$' ∧ c ≠ ',' ∧ c ≠ '(' ∧ c ≠ ')' ∧ c ≠ ' ' := by
  intro c hc
  rcases renderDecL_chars n m c hc with h | h | h
  · have := isDigit_ne_special c h
    exact ⟨this.2.2.2.1, this.2.2.2.2.1, this.2.2.2.2.2.1, this.2.2.2.2.2.2.1,
      this.2.2.2.2.2.2.2⟩
  · subst h
    refine ⟨?_, ?_, ?_, ?_, ?_⟩ <;> decide
  · subst h
    refine ⟨?_, ?_, ?_, ?_, ?_⟩ <;> decide

theorem renderDecL_no_dash_tail (n : Int) (m : Nat) :
    hasDigitDash (renderDecL n m) = false := by
  have hbody : '-' ∉ renderUnsignedL n.natAbs m := by
    intro hm
    rcases renderUnsignedL_chars n.natAbs m '-' hm with h | h
    · exact absurd h (by decide)
    · exact absurd h (by decide)
  rw [renderDecL]
  by_cases hn : n < 0
  · rw [if_pos hn]
    cases hb : renderUnsignedL n.natAbs m with
    | nil => rfl
    | cons b t =>
      show (('-'.isDigit && (b == '-')) || hasDigitDash (b :: t)) = false
      rw [← hb, hasDigitDash_eq_false _ hbody]
      simp
  · rw [if_neg hn]
    exact hasDigitDash_eq_false _ hbody

theorem numericNormalizeL_render (n : Int) (m : Nat) :
    numericNormalizeL (renderDecL n m) = renderDecL n m := by
  have hne := renderDecL_ne_special n m
  have hfil : ∀ (p : Char → Bool), (∀ c ∈ renderDecL n m, p c = true) →
      (renderDecL n m).filter p = renderDecL n m := fun p hp => List.filter_eq_self.mpr hp
  simp only [numericNormalizeL]
  rw [renderDecL_no_dash_tail]
  simp only [Bool.false_eq_true, if_false]
  rw [hfil _ (fun c hc => by simpa using (hne c hc).1)]
  rw [hfil _ (fun c hc => by simpa using (hne c hc).2.1)]
  rw [endsWithCR_eq_false _ (fun hm => absurd rfl (hne ' ' hm).2.2.2.2)]
  simp only [Bool.false_eq_true, if_false]
  have hany : (renderDecL n m).any (fun c => decide (c = '(')) = false := by
    rw [List.any_eq_false]
    intro c hc
    simpa using (hne c hc).2.2.1
  rw [hany]
  simp only [Bool.false_eq_true, if_false]

theorem parseUnsigned_renderUnsigned (a m : Nat) :
    parseUnsigned (renderUnsignedL a m) = some (a, m) := by
  by_cases hm : m = 0
  · subst hm
    rw [renderUnsignedL, if_pos rfl]
    rw [parseUnsigned_digits (natDigits a) (natDigits_all_digit a) (natDigits_ne_nil a),
      digitsToNat_natDigits]
  · exact parseUnsigned_render a m hm

theorem parseDecL_render (n : Int) (m : Nat) :
    parseDecL (renderDecL n m) = some (n, m) := by
  by_cases hn : n < 0
  · rw [renderDecL, if_pos hn]
    show (if ('-' : Char) = '-' then
        (parseUnsigned (renderUnsignedL n.natAbs m)).map (fun p => (-(p.1 : Int), p.2))
      else if ('-' : Char) = '+' then
        (parseUnsigned (renderUnsignedL n.natAbs m)).map (fun p => ((p.1 : Int), p.2))
      else (parseUnsigned ('-' :: renderUnsignedL n.natAbs m)).map
        (fun p => ((p.1 : Int), p.2))) = some (n, m)
    rw [if_pos rfl, parseUnsigned_renderUnsigned]
    show some (-(n.natAbs : Int), m) = some (n, m)
    congr 1
    congr 1
    omega
  · rw [renderDecL, if_neg hn]
    obtain ⟨c, t, hct, hcd⟩ := renderUnsignedL_head n.natAbs m
    have hc1 : ¬(c = '-') := (isDigit_ne_special c hcd).2.1
    have hc2 : ¬(c = '+') := (isDigit_ne_special c hcd).2.2.1
    rw [hct]
    show (if c = '-' then (parseUnsigned t).map (fun p => (-(p.1 : Int), p.2))
      else if c = '+' then (parseUnsigned t).map (fun p => ((p.1 : Int), p.2))
      else (parseUnsigned (c :: t)).map (fun p => ((p.1 : Int), p.2))) = some (n, m)
    rw [if_neg hc1, if_neg hc2, ← hct, parseUnsigned_renderUnsigned]
    show some ((n.natAbs : Int), m) = some (n, m)
    congr 1
    congr 1
    omega

theorem numericCellStr_render (n : Int) (m : Nat) :
    numericCellStr (String.mk (renderDecL n m)) = Cell.num n m := by
  rw [numericCellStr]
  have h1 : numericNormalizeL (String.mk (renderDecL n m)).data = renderDecL n m :=
    numericNormalizeL_render n m
  rw [h1, parseDecL_render]

theorem numericCellDyn_false_idem (c : Cell) :
    numericCellDyn false (renderCell (numericCellDyn false c)) = numericCellDyn false c := by
  cases c with
  | null => rfl
  | num n m => rfl
  | date d => rfl
  | str s =>
    show numericCellDyn false (renderCell (numericCellStr s)) = numericCellStr s
    cases hq : parseDecL (numericNormalizeL s.data) with
    | none =>
      have hnull : numericCellStr s = Cell.null := by rw [numericCellStr, hq]
      rw [hnull]
      rfl
    | some p =>
      have hnum : numericCellStr s = Cell.num p.1 p.2 := by rw [numericCellStr, hq]
      rw [hnum]
      show numericCellDyn false (Cell.str (String.mk (renderDecL p.1 p.2))) = Cell.num p.1 p.2
      show numericCellStr (String.mk (renderDecL p.1 p.2)) = Cell.num p.1 p.2
      exact numericCellStr_render p.1 p.2

/-- C7 (amended): with `flip_sign` left false, numeric coercion is
idempotent — re-processing the decimal rendering of its own output
reproduces that output — and total: it maps a column to one of equal
length whose every cell is a parsed value or null (unparseable and
non-string cells coerce to null, nothing raises). With `flip_sign`
set the second application negates again (see the counterexample), so
the claim holds only for the non-flipping configuration. -/
theorem c7_numeric_idempotent_total :
    ∀ (cells : List Cell),
      numericProcess false ((numericProcess false cells).map renderCell)
        = numericProcess false cells
      ∧ (numericProcess false cells).length = cells.length
      ∧ (numericProcess false cells).all
          (fun c => match c with
            | Cell.null => true
            | Cell.num _ _ => true
            | _ => false) = true := by
  intro cells
  refine ⟨?_, by rw [numericProcess, List.length_map], ?_⟩
  · simp only [numericProcess, List.map_map]
    apply List.map_congr_left
    intro c _
    exact numericCellDyn_false_idem c
  · rw [numericProcess, all_map_bool, List.all_eq_true]
    intro c _
    cases c with
    | null => rfl
    | num n m => rfl
    | date d => rfl
    | str s =>
      show (match numericCellStr s with
        | Cell.null => true
        | Cell.num _ _ => true
        | _ => false) = true
      cases hq : parseDecL (numericNormalizeL s.data) with
      | none => rw [numericCellStr, hq]
      | some p => rw [numericCellStr, hq]

/-- Counterexample to C7 as stated: a `NumericColumn` with
`flip_sign=true` is not idempotent — processing "75" gives -75, and
re-processing that output negates it again to 75. -/
theorem c7_counterexample :
    numericProcess true ((numericProcess true [Cell.str "75"]).map renderCell)
      ≠ numericProcess true [Cell.str "75"] := by
  decide
